import Mathlib

/-!
Verification development for the InputBuilder repository (rate and spike
stimulus builders).  The Python sources under src/ratebuilder and
src/spikebuilder are shallowly embedded below: machine floats that only ever
hold small decimal times and rates are modelled as rationals, numpy arrays as
lists, the injected random source as an explicit function argument, and
Python exceptions as Except values.  The external package genericbuilder
(the lifecycle core: freezing, copying, builder type tags) is not part of
src/; the few facts about it that the embedded functions need are modelled
from the specification and marked as such in their doc comments.
-/

namespace InputBuilder

/-- Python `len(set(xs)) <= 1`, i.e. all elements of the list are equal.
Used by the validation routines of the combined builders. -/
def allEqual [DecidableEq α] : List α → Bool
  | [] => true
  | x :: xs => xs.all (fun y => y = x)

/-! ### Channel canonicalization (src/ratebuilder/base_rate_gen.py 117-129,
src/spikebuilder/const_rate_spike_gen.py 76-84)

`ConstRateSpikeBuilder.channels` runs the input through
`np.lib.arraysetops.unique`, which returns the distinct values in ascending
order.  `BaseRateBuilder.channels` instead runs `np.array(list(set(channels_)))`:
the distinct values in CPython set-iteration order, which is NOT sorted in
general.  Both are embedded; the CPython small-set iteration order is
reproduced exactly for sets that stay within the initial 8-slot table
(at most 4 distinct elements, which covers every concrete input used below). -/

/-- `np.lib.arraysetops.unique`: distinct values in ascending order. -/
def npUnique (l : List ℕ) : List ℕ :=
  List.insertionSort (fun a b => a ≤ b) l.dedup

/-- Channel setter of ConstRateSpikeBuilder (const_rate_spike_gen.py 76-84):
rounds (identity on naturals), dedups and sorts via `np.unique`, result
read-only. -/
def ConstRateSpikeBuilder.channels_set (channels : List ℕ) : List ℕ :=
  npUnique channels

/-- One probing step of CPython set insertion on an 8-slot table
(`set_add_entry` in Objects/setobject.c): for table mask 7 the linear-probe
window never fits, so the probe sequence is
`perturb := perturb >>> 5; i := (i*5 + 1 + perturb) &&& 7`.
`hash n = n` for the small non-negative ints stored here.  Returns the slot
at which `x` sits or is to be placed; `fuel` bounds the search. -/
def pySetProbe (table : List (Option ℕ)) (x : ℕ) : ℕ → ℕ → ℕ → ℕ
  | _, i, 0 => i
  | perturb, i, fuel + 1 =>
    match table.getD i none with
    | none => i
    | some y =>
      if y = x then i
      else pySetProbe table x (perturb / 32) ((i * 5 + 1 + perturb / 32) % 8) fuel

/-- Insert one small int into the CPython set table (8 slots, no growth:
valid while at most 4 distinct elements are present). -/
def pySetInsert (table : List (Option ℕ)) (x : ℕ) : List (Option ℕ) :=
  table.set (pySetProbe table x x (x % 8) 8) (some x)

/-- `list(set(l))` under CPython for small non-negative ints (at most 4
distinct values): insert in list order, then read the table slots in
ascending order. -/
def pySetList (l : List ℕ) : List ℕ :=
  (l.foldl pySetInsert (List.replicate 8 none)).filterMap id

/-- Channel setter of BaseRateBuilder (base_rate_gen.py 117-129):
`np.array(list(set(channels_)), dtype=np.int32)` checked non-negative and
stored; the stored order is the CPython set-iteration order. -/
def BaseRateBuilder.channels_set (channels : List ℕ) : List ℕ :=
  pySetList channels

/-- The canonicalization the specification describes: the deduplicated input
sorted in ascending order.  Stated from the spec so that it can be compared
with the embedded setters. -/
def channelsCanonicalSpec (channels : List ℕ) : List ℕ :=
  List.insertionSort (fun a b => a ≤ b) channels.dedup

/-! ### Combined rate builder validation (src/ratebuilder/comb_rate_gen.py 30-35) -/

/-- The attributes of a constituent rate builder that the combined builder
validation reads: `steps_per_ms` and the preprocessed
`time_len_in_steps` (steps_length). -/
structure RBView where
  steps_per_ms : ℕ
  steps_length : ℕ
deriving DecidableEq, Repr

/-- `CombinedRateBuilder._validate` (comb_rate_gen.py 30-35): asserts that
all constituent builders share one `time_len_in_steps` and one
`steps_per_ms` (Python: `len(set(...)) <= 1` for each). -/
def CombinedRateBuilder.validate (rate_builders : List RBView) : Except String Unit :=
  if allEqual (rate_builders.map (fun rb => rb.steps_length)) then
    if allEqual (rate_builders.map (fun rb => rb.steps_per_ms)) then
      Except.ok ()
    else
      Except.error "All constituent rate builders must have a common step size"
  else
    Except.error "All constituent rate builders must have a common time length"

/-! ### Builder references and composite child addition
(src/spikebuilder/combined_spike_gen.py 186-220,
src/ratebuilder/comb_rate_gen.py 78-87,
src/spikebuilder/superimpose_spike_gen.py 185-232) -/

/-- A reference to a builder object as the composite-add routines see it.
Modelled from the spec: the lifecycle core (external package genericbuilder,
not under src/) gives every builder a type tag queryable with
`get_builder_type`, an `is_frozen` and an `is_built` flag.  `uid` models
Python object identity, so that storing a copy versus storing the argument
itself is observable. -/
structure BuilderRef where
  uid : ℕ
  btype : String
  is_frozen : Bool
  is_built : Bool
  steps_per_ms : ℕ := 1
deriving DecidableEq, Repr

/-- Modelled from the spec: `copy_immutable` of the lifecycle core (missing
genericbuilder package) returns an independent duplicate (fresh object
identity) that is frozen; being a copy it keeps the built flag. -/
def BuilderRef.copy_immutable (b : BuilderRef) (fresh : ℕ) : BuilderRef :=
  { b with uid := fresh, is_frozen := true }

/-- Modelled from the spec: `copy` of the lifecycle core returns an
independent, mutable duplicate. -/
def BuilderRef.copy (b : BuilderRef) (fresh : ℕ) : BuilderRef :=
  { b with uid := fresh, is_frozen := false }

/-- State of a CombinedSpikeBuilder that `add_spike_builder` touches:
the integer-keyed child table, the name alias map and the running counter. -/
structure CSBState where
  spike_builders : List (ℕ × BuilderRef)
  name_map : List (String × ℕ)
  last_count : ℕ
deriving DecidableEq, Repr

/-- `CombinedSpikeBuilder.add_spike_builder` (combined_spike_gen.py 186-220).
Checks the builder type tag, rejects a frozen yet unbuilt child with a
ValueError, and otherwise stores `spike_builder_.copy_immutable()` under the
key `_last_count`, recording the alias if a name was given.  `fresh` is the
object identity of the copy made on acceptance. -/
def CombinedSpikeBuilder.add_spike_builder (st : CSBState) (sb : BuilderRef)
    (name : Option String) (fresh : ℕ) : Except String (CSBState × ℕ) :=
  if sb.btype = "spike" then
    if !sb.is_frozen || sb.is_built then
      let stored := sb.copy_immutable fresh
      let name_map :=
        match name with
        | some n => st.name_map ++ [(n, st.last_count)]
        | none => st.name_map
      Except.ok
        ({ spike_builders := st.spike_builders ++ [(st.last_count, stored)],
           name_map := name_map,
           last_count := st.last_count + 1 }, st.last_count)
    else
      Except.error "The spike builder is a frozen, unbuilt spike builder and can thus not be used to build spikes."
  else
    Except.error "The object being added is not a spike builder"

/-- `CombinedRateBuilder.add_rate_builders` (comb_rate_gen.py 78-87): appends
each element whose builder type tag is rate to `_rate_builders` as it is,
with no frozen or built check and no copy; a non-rate element raises a
TypeError, leaving the elements already appended in place (Python mutates
the list in place).  Returns the final list and the raised error, if any. -/
def CombinedRateBuilder.add_rate_builders (rate_builders : List BuilderRef)
    (rate_builder_array : List BuilderRef) : List BuilderRef × Option String :=
  match rate_builder_array with
  | [] => (rate_builders, none)
  | rb :: rest =>
    if rb.btype = "rate" then
      CombinedRateBuilder.add_rate_builders (rate_builders ++ [rb]) rest
    else
      (rate_builders, some "the rate_builder_array must contain only rate builder objects")

/-- Python errors distinguished by the superimpose add routine. -/
inductive PyErr where
  | nameError
  | valueError (msg : String)
deriving DecidableEq, Repr

/-- State of a SuperimposeSpikeBuilder that `add_spike_builder` touches:
the string-keyed child dict and the running counter. -/
structure SSBState where
  spike_builders : List (String × BuilderRef)
  steps_per_ms : ℕ
  last_count : ℕ
deriving DecidableEq, Repr

/-- The default-name pattern `builder_[0-9]+` checked by the superimpose add
routine. -/
def isDefaultBuilderName (s : String) : Bool :=
  s.startsWith "builder_" &&
    (let rest := s.drop 8
     !rest.isEmpty && rest.all Char.isDigit)

/-- `SuperimposeSpikeBuilder.add_spike_builder` (superimpose_spike_gen.py
185-232).  The body first tests `name_ not in self._spike_builders` (always
true for `None`, the dict being string-keyed); in the `name_ is None` branch
it evaluates `'builder_...'.format(_last_count + 1)` where `_last_count` is
an unbound name (the code omits `self.`), so the call raises NameError
before anything is stored.  Named additions proceed through the pattern,
type, step-size and frozen checks and store `spike_builder_.copy()`. -/
def SuperimposeSpikeBuilder.add_spike_builder (st : SSBState) (sb : BuilderRef)
    (name? : Option String) (fresh : ℕ) : Except PyErr (SSBState × String) :=
  let present :=
    match name? with
    | some n => (st.spike_builders.lookup n).isSome
    | none => false
  if present then
    Except.error (PyErr.valueError "The name already has a spike builder associated with it")
  else
    match name? with
    | none => Except.error PyErr.nameError
    | some n =>
      if isDefaultBuilderName n then
        Except.error (PyErr.valueError "The name assigned cannot be of the form builder_digits because this is used in the default naming scheme")
      else if sb.btype = "spike" then
        if st.spike_builders.isEmpty || sb.steps_per_ms = st.steps_per_ms then
          if !sb.is_frozen || sb.is_built then
            Except.ok
              ({ st with
                 spike_builders := st.spike_builders ++ [(n, sb.copy fresh)],
                 last_count := st.last_count + 1 }, n)
          else
            Except.error (PyErr.valueError "The spike builder is a frozen, unbuilt spike builder and can thus not be used to build spikes.")
        else
          Except.error (PyErr.valueError "The Spike Builders must have a consistent stepsize")
      else
        Except.error (PyErr.valueError "The object being added is not a spike builder")

/-! ### Spike build outputs (src/spikebuilder/const_rate_spike_gen.py 140-154,
src/spikebuilder/superimpose_spike_gen.py 310-345)

A built spike output is, per channel, the pair of the relative-step list and
the same-length weight list. -/

/-- `ConstRateSpikeBuilder._build` (const_rate_spike_gen.py 140-154): the
injected random source draws one Poisson count per channel and step
(`rng i s`, the draw for channel row `i` at step `s`); per channel the
non-zero step indices (`np.argwhere`, ascending) and their counts form the
output. -/
def ConstRateSpikeBuilder.build (rng : ℕ → ℕ → ℕ) (nchannels steps_length : ℕ) :
    List (List ℕ × List ℕ) :=
  (List.range nchannels).map (fun i =>
    let steps := (List.range steps_length).filter (fun s => rng i s ≠ 0)
    (steps, steps.map (rng i)))

/-- A built constituent spike train as the superimpose merge reads it:
its start step and, per channel, the event list of
(relative step, weight) pairs (the source zips `builder.channels`,
`builder.spike_step_array` and `builder.spike_weight_array`; the step arrays
carry the relative steps offset by the start step, so the pairs here are kept
relative and the offset explicit). -/
structure ChildTrain where
  start_step : ℕ
  chans : List (ℕ × List (ℕ × ℕ))
deriving DecidableEq, Repr

/-- The dense per-step accumulator `spike_bincount_vector` of the superimpose
merge (superimpose_spike_gen.py 331-342), read at parent-relative step `s` of
channel `c`: the sum of the weights of every constituent event whose absolute
step `start_step + rel` equals `S + s` on channel `c` (the source subtracts
the parent start step `S` from the absolute steps before accumulating). -/
def superimposeBincount (children : List ChildTrain) (S c s : ℕ) : ℕ :=
  (children.map (fun ct =>
    ((ct.chans.filter (fun p => p.1 = c)).map (fun p =>
      ((p.2.filter (fun e => ct.start_step + e.1 = S + s)).map (fun e => e.2)).sum)).sum)).sum

/-- `SuperimposeSpikeBuilder._build` (superimpose_spike_gen.py 310-345): for
each parent channel (in the stored, deduplicated channel order `cs`,
one output row per channel via `channel_index_map`), accumulate all
constituent events into the length-`steps_length` bincount vector and read
back the non-zero indices (`np.argwhere`, ascending) with their accumulated
weights. -/
def SuperimposeSpikeBuilder.build (children : List ChildTrain) (S steps_length : ℕ)
    (cs : List ℕ) : List (List ℕ × List ℕ) :=
  cs.map (fun c =>
    let steps := (List.range steps_length).filter
      (fun s => superimposeBincount children S c s ≠ 0)
    (steps, steps.map (superimposeBincount children S c)))

/-! ### Repeater validation (src/spikebuilder/repeater_spike_gen.py 59-72) -/

/-- Lexicographic comparison of (start, end) pairs: Python `sorted` on a list
of 2-tuples of floats. -/
def pairLe (p q : ℚ × ℚ) : Prop :=
  p.1 < q.1 ∨ (p.1 = q.1 ∧ p.2 ≤ q.2)

instance : DecidableRel pairLe := fun p q => by
  unfold pairLe
  infer_instance

/-- The adjacent-pair disjointness test of `RepeaterSpikeBuilder._validate`
(repeater_spike_gen.py 64-66): every adjacent pair of the sorted
(start, end) list satisfies `next.start >= prev.end`. -/
def adjacentDisjoint (l : List (ℚ × ℚ)) : Bool :=
  (l.zip l.tail).all (fun pq => decide (pq.1.2 ≤ pq.2.1))

/-- `RepeaterSpikeBuilder._validate` (repeater_spike_gen.py 59-72) together
with the inherited `CombinedSpikeBuilder._validate` it first calls
(combined_spike_gen.py 100-103).  `stepsList` holds the `steps_per_ms` of the
stored spike builders; `childLen uid` is the `time_length` of the stored
spike builder with id `uid` (the dict lookup, total on the ids the repeat
instances reference); `instances` is the repeat-instance set
`(start_time, uid)`; `assigned` is the explicitly assigned `time_length`,
if any.  Errors are the assertion messages, in source order. -/
def RepeaterSpikeBuilder.validate (stepsList : List ℕ) (childLen : ℕ → ℚ)
    (instances : List (ℚ × ℕ)) (assigned : Option ℚ) : Except String Unit :=
  if allEqual stepsList then
    let start_end_time_list :=
      List.insertionSort pairLe
        (instances.map (fun ri => (ri.1, ri.1 + childLen ri.2)))
    if adjacentDisjoint start_end_time_list then
      match assigned with
      | none => Except.ok ()
      | some T =>
        if ((instances.map (fun ri => ri.1 + childLen ri.2)).all (fun e => decide (e ≤ T))) then
          Except.ok ()
        else
          Except.error "The specified repeats are not within the time bounds"
    else
      Except.error "All the constituent spike builders must correspond to disjoint intervals"
  else
    Except.error "All spike builders must have consistent stepsize"

/-! ### Superimpose preprocessing (src/spikebuilder/superimpose_spike_gen.py 64-82) -/

/-- The attributes of a constituent spike builder read during superimpose
preprocessing. -/
structure SBView where
  start_time : ℚ
  time_length : ℚ
  steps_per_ms : ℕ
  channels : List ℕ
deriving DecidableEq, Repr

/-- Python `max` over a non-empty list, as a fold. -/
def listMax (a : ℚ) (l : List ℚ) : ℚ := l.foldl max a

/-- Python `min` over a non-empty list, as a fold. -/
def listMin (a : ℚ) (l : List ℚ) : ℚ := l.foldl min a

/-- The derived identity attributes a SuperimposeSpikeBuilder computes. -/
structure SSBDerived where
  time_length : ℚ
  start_time : ℚ
  steps_per_ms : ℕ
  channels : List ℕ
deriving DecidableEq, Repr

/-- `SuperimposeSpikeBuilder._preprocess` (superimpose_spike_gen.py 64-82):
with a non-empty child dict, derives
`time_length = max(end_time_vect) - min(start_time_vect)` where
`end_time_vect = [sb.time_length + sb.start_time]`,
`start_time = min(start_time_vect)`, `steps_per_ms` from the first child,
and `channels = sorted(set.union(...))` of the child channel sets (the
ascending enumeration of the union, here the sorted deduplicated
concatenation).  With no children nothing is derived (`none`). -/
def SuperimposeSpikeBuilder.preprocess (children : List SBView) : Option SSBDerived :=
  match children with
  | [] => none
  | c0 :: rest =>
    some
      { time_length :=
          listMax (c0.time_length + c0.start_time) (rest.map (fun sb => sb.time_length + sb.start_time))
            - listMin c0.start_time (rest.map (fun sb => sb.start_time)),
        start_time := listMin c0.start_time (rest.map (fun sb => sb.start_time)),
        steps_per_ms := c0.steps_per_ms,
        channels :=
          List.insertionSort (fun a b => a ≤ b) (((c0 :: rest).map (fun sb => sb.channels)).flatten.dedup) }

/-! ### Constant rate builder (src/ratebuilder/const_rate_gen.py) -/

/-- A Python rate value as the constant rate builder stores it: a scalar or
a 1-D numpy vector. -/
inductive PyRate where
  | scalar (q : ℚ)
  | vec (l : List ℚ)
deriving DecidableEq, Repr

/-- numpy broadcast of a stored rate value over the channels-by-steps output
shape: a scalar fills every cell; a one-element vector broadcasts its single
value (vectors of other lengths are never stored, see the setter). -/
def PyRate.entry : PyRate → ℕ → ℕ → ℚ
  | PyRate.scalar q, _, _ => q
  | PyRate.vec l, _, _ => l.getD 0 0

/-- `ConstRateBuilder.rate` setter (const_rate_gen.py 27-30):
`assert rate >= 0` then store.  Under Python and numpy semantics the assert
passes for a non-negative scalar and for a one-element non-negative array
(whose comparison result is a one-element truth array), fails
(AssertionError) for a negative scalar, a negative one-element array or an
empty array, and raises for an array of two or more elements, whose
comparison result has no single truth value. -/
def ConstRateBuilder.rate_set (rate : PyRate) : Except String PyRate :=
  match rate with
  | PyRate.scalar q =>
    if 0 ≤ q then Except.ok (PyRate.scalar q)
    else Except.error "rate must be a non-negative number"
  | PyRate.vec [] => Except.error "rate must be a non-negative number"
  | PyRate.vec [x] =>
    if 0 ≤ x then Except.ok (PyRate.vec [x])
    else Except.error "rate must be a non-negative number"
  | PyRate.vec _ =>
    Except.error "The truth value of an array with more than one element is ambiguous"

/-- `ConstRateBuilder._build` (const_rate_gen.py 103-104):
`self._rate_array = self._rate`; the stored rate value is the output,
unconditionally. -/
def ConstRateBuilder.build (rate : PyRate) : PyRate := rate

/-! ### Combined rate builder build (src/ratebuilder/comb_rate_gen.py 90-112,
src/ratebuilder/const_rate_gen.py 103-104) -/

/-- A rate array as the combined build sees it: a scalar
(`np.isscalar(rb.rate_array)`) or a 2-D array of rows. -/
inductive RArr where
  | scalar (q : ℚ)
  | arr (rows : List (List ℚ))
deriving DecidableEq, Repr

/-- Reading cell (i, t) of a rate array, with numpy scalar broadcast. -/
def RArr.entry : RArr → ℕ → ℕ → ℚ
  | RArr.scalar q, _, _ => q
  | RArr.arr rows, i, t => (rows.getD i []).getD t 0

/-- numpy `+` on the values `combine_sum` mixes: scalars add, a scalar
broadcasts over an array, and arrays add elementwise (the source arrays all
share one shape; a shape mismatch would raise in numpy, the truncating
zipWith here is only read under that shape agreement). -/
def npAdd : RArr → RArr → RArr
  | RArr.scalar a, RArr.scalar b => RArr.scalar (a + b)
  | RArr.scalar a, RArr.arr bs => RArr.arr (bs.map (List.map (fun x => a + x)))
  | RArr.arr as, RArr.scalar b => RArr.arr (as.map (List.map (fun x => x + b)))
  | RArr.arr as, RArr.arr bs => RArr.arr (List.zipWith (List.zipWith (fun x y => x + y)) as bs)

/-- `combine_sum` (comb_rate_gen.py 115-119), the default transform:
`return_arr = 0; for arr in list: return_arr = return_arr + arr`. -/
def combine_sum (rate_array_list : List RArr) : RArr :=
  rate_array_list.foldl npAdd (RArr.scalar 0)

/-- A built constituent rate builder as the combined build reads it: its
stored channels and its built rate array. -/
structure RBuilt where
  channels : List ℕ
  out : RArr
deriving DecidableEq, Repr

/-- Index of the first occurrence of a channel in a stored channel list
(stored channel lists are duplicate-free, so first is the only one). -/
def chanIndex (l : List ℕ) (c : ℕ) : Option ℕ :=
  match l with
  | [] => none
  | x :: xs => if x = c then some 0 else (chanIndex xs c).map (fun j => j + 1)

/-- The zero-extension step of `CombinedRateBuilder._build`
(comb_rate_gen.py 96-106): a scalar child array is passed through; an array
child is scattered into a zero array of `cs.length` rows via
`channel_index_map` (parent row i receives the child row of channel
`cs[i]`, rows of absent channels stay zero; the width is the child array
width, `shape[1:]`). -/
def extendChild (cs : List ℕ) (rb : RBuilt) : RArr :=
  match rb.out with
  | RArr.scalar q => RArr.scalar q
  | RArr.arr rows =>
    let w := (rows.headD []).length
    RArr.arr ((List.range cs.length).map (fun i =>
      match chanIndex rb.channels (cs.getD i 0) with
      | some j => rows.getD j (List.replicate w 0)
      | none => List.replicate w 0))

/-- `CombinedRateBuilder._build` (comb_rate_gen.py 90-112): build every
child (the `children` here are the built views), zero-extend each child
array to the full channel set `cs`, apply the transform, and raise if the
unimplemented histogram equalization was requested. -/
def CombinedRateBuilder.build (cs : List ℕ) (children : List RBuilt)
    (transform : List RArr → RArr) (use_hist_eq : Bool) : Except String RArr :=
  let final_rate_array := transform (children.map (extendChild cs))
  if use_hist_eq then Except.error "histogram equalization not yet implemented"
  else Except.ok final_rate_array

/-- The per-cell contribution of one built child at parent channel `c` and
step `t`: the child value at its row for `c`, or 0 when the child does not
cover `c`.  Stated from the spec side to characterize the build. -/
def childValueAt (rb : RBuilt) (c t : ℕ) : ℚ :=
  match rb.out, chanIndex rb.channels c with
  | RArr.arr rows, some j => (rows.getD j []).getD t 0
  | _, _ => 0

/-- A rate array holding exactly n rows of m entries each; the shape every
zero-extended child array has after a validated combined build. -/
def IsShape (a : RArr) (n m : ℕ) : Prop :=
  ∃ rows, a = RArr.arr rows ∧ rows.length = n ∧ ∀ r ∈ rows, r.length = m

/-! ### OU parameter conversion (src/ratebuilder/ou_rate_gen.py 68-82) -/

/-- The discrete-time OU parameter triple (`DT_param_struct`). -/
structure DTParams where
  mean : ℝ
  theta : ℝ
  sigma : ℝ

/-- `OURateBuilder.convert_params_CT_to_DT` (ou_rate_gen.py 68-82) in exact
real arithmetic: `h = 1/steps_per_ms`, `mean_DT = mean`,
`theta_DT = (1 - exp(-theta*h))/h`,
`sigma_DT = sigma*sqrt(theta_DT*(2 - theta_DT*h)/(2*h*theta))`. -/
noncomputable def OURateBuilder.convert_params_CT_to_DT
    (mean sigma theta : ℝ) (steps_per_ms : ℕ) : DTParams :=
  let h : ℝ := 1 / (steps_per_ms : ℝ)
  let theta_DT : ℝ := (1 - Real.exp (-theta * h)) / h
  let sigma_DT : ℝ := sigma * Real.sqrt (theta_DT * (2 - theta_DT * h) / (2 * h * theta))
  { mean := mean, theta := theta_DT, sigma := sigma_DT }

end InputBuilder

namespace InputBuilder

theorem allEqual_iff [DecidableEq α] (l : List α) :
    allEqual l = true ↔ ∀ a ∈ l, ∀ b ∈ l, a = b := by
  cases l with
  | nil => simp [allEqual]
  | cons x xs =>
    simp only [allEqual, List.all_eq_true, decide_eq_true_eq]
    constructor
    · intro hall a ha b hb
      have hax : a = x := by
        rcases List.mem_cons.mp ha with rfl | ha2
        · rfl
        · exact hall a ha2
      have hbx : b = x := by
        rcases List.mem_cons.mp hb with rfl | hb2
        · rfl
        · exact hall b hb2
      rw [hax, hbx]
    · intro hall y hy
      exact hall y (List.mem_cons_of_mem x hy) x (List.mem_cons_self x xs)

/-- C1: for every spike generator, after a successful build() the per-channel
output arrays (spike_rel_step_array and spike_weight_array) have exactly
channels.size entries, and every relative step index in every channel lies in
[0, steps_length).  Proved for the two cited builds: ConstRateSpikeBuilder
(one row per channel, indices filtered out of range(steps_length)) and
SuperimposeSpikeBuilder (one row per parent channel, indices read back from
the length-steps_length bincount vector).  The step and weight lists of each
channel have equal length as well. -/
theorem C1_spike_build_output_invariants :
    (∀ (rng : ℕ → ℕ → ℕ) (nchannels steps_length : ℕ),
      (ConstRateSpikeBuilder.build rng nchannels steps_length).length = nchannels ∧
      ∀ p ∈ ConstRateSpikeBuilder.build rng nchannels steps_length,
        p.1.length = p.2.length ∧ ∀ s ∈ p.1, s < steps_length) ∧
    (∀ (children : List ChildTrain) (S steps_length : ℕ) (cs : List ℕ),
      (SuperimposeSpikeBuilder.build children S steps_length cs).length = cs.length ∧
      ∀ p ∈ SuperimposeSpikeBuilder.build children S steps_length cs,
        p.1.length = p.2.length ∧ ∀ s ∈ p.1, s < steps_length) := by
  constructor
  · intro rng n L
    constructor
    · simp [ConstRateSpikeBuilder.build]
    · intro p hp
      simp only [ConstRateSpikeBuilder.build, List.mem_map, List.mem_range] at hp
      obtain ⟨i, _, rfl⟩ := hp
      refine ⟨by simp, ?_⟩
      intro s hs
      simp only [List.mem_filter, List.mem_range] at hs
      exact hs.1
  · intro children S L cs
    constructor
    · simp [SuperimposeSpikeBuilder.build]
    · intro p hp
      simp only [SuperimposeSpikeBuilder.build, List.mem_map] at hp
      obtain ⟨c, _, rfl⟩ := hp
      refine ⟨by simp, ?_⟩
      intro s hs
      simp only [List.mem_filter, List.mem_range] at hs
      exact hs.1

/-- Witness for C1 at a concrete input: one channel, two steps, a random
source that always draws 1; and a superimpose merge of no children on one
channel. -/
theorem C1_spike_build_output_invariants_witness :
    ((ConstRateSpikeBuilder.build (fun _ _ => 1) 1 2).length = 1 ∧
      ([0, 1], [1, 1]).1.length = ([0, 1], [1, 1]).2.length ∧
      ∀ s ∈ [0, 1], s < 2) ∧
    (SuperimposeSpikeBuilder.build [] 0 3 [5]).length = 1 := by
  refine ⟨⟨(C1_spike_build_output_invariants.1 (fun _ _ => 1) 1 2).1, ?_⟩, ?_⟩
  · exact (C1_spike_build_output_invariants.1 (fun _ _ => 1) 1 2).2
      ([0, 1], [1, 1]) (by decide)
  · exact (C1_spike_build_output_invariants.2 [] 0 3 [5]).1

/-- C2 counterexample: `CombinedRateBuilder.add_rate_builders` accepts a
frozen, not-yet-built rate builder without any error, and what it stores is
the argument object itself (same identity, no copy), contradicting the claim
that on every composite such an addition fails and accepted children are
stored as frozen copies. -/
theorem C2_counterexample_rate_child_unchecked :
    CombinedRateBuilder.add_rate_builders []
        [{ uid := 0, btype := "rate", is_frozen := true, is_built := false }] =
      ([{ uid := 0, btype := "rate", is_frozen := true, is_built := false }], none) := by
  rfl

/-- C2 amended: `CombinedSpikeBuilder.add_spike_builder` rejects a frozen,
unbuilt child with a ValueError leaving the composite unchanged, and stores
any accepted child as a frozen copy (`copy_immutable`: fresh object identity,
frozen), so mutating the original cannot change the stored child;
`CombinedRateBuilder.add_rate_builders` however performs no such check and
appends the original rate builder objects themselves. -/
theorem C2_frozen_copy_discipline :
    (∀ (st : CSBState) (sb : BuilderRef) (name : Option String) (fresh : ℕ),
      sb.btype = "spike" → sb.is_frozen = true → sb.is_built = false →
      CombinedSpikeBuilder.add_spike_builder st sb name fresh =
        Except.error "The spike builder is a frozen, unbuilt spike builder and can thus not be used to build spikes.") ∧
    (∀ (st : CSBState) (sb : BuilderRef) (name : Option String) (fresh : ℕ)
        (st2 : CSBState) (k : ℕ),
      CombinedSpikeBuilder.add_spike_builder st sb name fresh = Except.ok (st2, k) →
      st2.spike_builders = st.spike_builders ++ [(st.last_count, sb.copy_immutable fresh)] ∧
      (sb.copy_immutable fresh).is_frozen = true ∧
      (sb.copy_immutable fresh).uid = fresh) ∧
    (∀ (st rbs : List BuilderRef), (∀ rb ∈ rbs, rb.btype = "rate") →
      CombinedRateBuilder.add_rate_builders st rbs = (st ++ rbs, none)) := by
  refine ⟨?_, ?_, ?_⟩
  · intro st sb name fresh hb hf hu
    simp [CombinedSpikeBuilder.add_spike_builder, hb, hf, hu]
  · intro st sb name fresh st2 k hok
    simp only [CombinedSpikeBuilder.add_spike_builder] at hok
    by_cases hb : sb.btype = "spike"
    · simp only [hb, if_true] at hok
      by_cases hacc : (!sb.is_frozen || sb.is_built) = true
      · simp only [hacc, if_true, Except.ok.injEq, Prod.mk.injEq] at hok
        refine ⟨?_, rfl, rfl⟩
        rw [← hok.1]
      · simp [hacc] at hok
    · simp [hb] at hok
  · intro st rbs hall
    induction rbs generalizing st with
    | nil => simp [CombinedRateBuilder.add_rate_builders]
    | cons rb rest ih =>
      have hrb : rb.btype = "rate" := hall rb (List.mem_cons_self rb rest)
      simp only [CombinedRateBuilder.add_rate_builders, hrb, if_true]
      rw [ih (st ++ [rb]) (fun x hx => hall x (List.mem_cons_of_mem rb hx))]
      simp

/-- Witness for C2 amended: a concrete frozen unbuilt spike builder is
rejected, a concrete mutable one is stored as a frozen copy, and a concrete
rate builder list is appended as given. -/
theorem C2_frozen_copy_discipline_witness :
    (CombinedSpikeBuilder.add_spike_builder ⟨[], [], 0⟩
        { uid := 3, btype := "spike", is_frozen := true, is_built := false } none 7 =
      Except.error "The spike builder is a frozen, unbuilt spike builder and can thus not be used to build spikes.") ∧
    ([(0, BuilderRef.copy_immutable { uid := 3, btype := "spike", is_frozen := false, is_built := false } 7)] =
        [] ++ [((0:ℕ), BuilderRef.copy_immutable { uid := 3, btype := "spike", is_frozen := false, is_built := false } 7)] ∧
      (BuilderRef.copy_immutable { uid := 3, btype := "spike", is_frozen := false, is_built := false } 7).is_frozen = true ∧
      (BuilderRef.copy_immutable { uid := 3, btype := "spike", is_frozen := false, is_built := false } 7).uid = 7) ∧
    CombinedRateBuilder.add_rate_builders []
        [{ uid := 0, btype := "rate", is_frozen := true, is_built := true }] =
      ([] ++ [{ uid := 0, btype := "rate", is_frozen := true, is_built := true }], none) := by
  refine ⟨?_, ?_, ?_⟩
  · exact C2_frozen_copy_discipline.1 ⟨[], [], 0⟩
      { uid := 3, btype := "spike", is_frozen := true, is_built := false } none 7 rfl rfl rfl
  · exact C2_frozen_copy_discipline.2.1 ⟨[], [], 0⟩
      { uid := 3, btype := "spike", is_frozen := false, is_built := false } none 7 _ _ rfl
  · exact C2_frozen_copy_discipline.2.2 []
      [{ uid := 0, btype := "rate", is_frozen := true, is_built := true }]
      (by intro rb hrb; simp at hrb; rw [hrb])

theorem adjacentDisjoint_iff_chain (l : List (ℚ × ℚ)) :
    adjacentDisjoint l = true ↔ List.Chain' (fun p q : ℚ × ℚ => p.2 ≤ q.1) l := by
  induction l with
  | nil => simp [adjacentDisjoint]
  | cons p rest ih =>
    cases rest with
    | nil => simp [adjacentDisjoint]
    | cons q rest2 =>
      have hstep : adjacentDisjoint (p :: q :: rest2) =
          (decide (p.2 ≤ q.1) && adjacentDisjoint (q :: rest2)) := rfl
      rw [hstep, Bool.and_eq_true, decide_eq_true_eq, ih, List.chain'_cons]

theorem adjacentDisjoint_false_iff (L : List (ℚ × ℚ)) :
    adjacentDisjoint L = false ↔
      ∃ i, ∃ h : i + 1 < L.length,
        (L.get ⟨i + 1, h⟩).1 < (L.get ⟨i, Nat.lt_of_succ_lt h⟩).2 := by
  rw [← Bool.not_eq_true, adjacentDisjoint_iff_chain, List.chain'_iff_get]
  push_neg
  constructor
  · rintro ⟨i, hi, hlt⟩
    exact ⟨i, Nat.lt_sub_iff_add_lt.mp hi, hlt⟩
  · rintro ⟨i, h, hlt⟩
    exact ⟨i, Nat.lt_sub_iff_add_lt.mpr h, hlt⟩

/-- C3: with consistent child step sizes and no explicitly assigned
time_length, repeater validation fails with the disjointness ValidationError
exactly when the (start, start + child.time_length) list, sorted, has an
adjacent pair with next.start < prev.end; and at the cited concrete inputs,
placements (0, A), (50, A) of a child of time_length 100 fail while
(0, A), (100, A) succeed. -/
theorem C3_repeater_disjoint_validation :
    (∀ (stepsList : List ℕ) (childLen : ℕ → ℚ) (instances : List (ℚ × ℕ)),
      allEqual stepsList = true →
      (RepeaterSpikeBuilder.validate stepsList childLen instances none =
          Except.error "All the constituent spike builders must correspond to disjoint intervals" ↔
        ∃ i, ∃ h : i + 1 <
            (List.insertionSort pairLe
              (instances.map (fun ri => (ri.1, ri.1 + childLen ri.2)))).length,
          ((List.insertionSort pairLe
              (instances.map (fun ri => (ri.1, ri.1 + childLen ri.2)))).get ⟨i + 1, h⟩).1 <
          ((List.insertionSort pairLe
              (instances.map (fun ri => (ri.1, ri.1 + childLen ri.2)))).get
                ⟨i, Nat.lt_of_succ_lt h⟩).2)) ∧
    RepeaterSpikeBuilder.validate [1] (fun _ => 100) [(0, 0), (50, 0)] none =
      Except.error "All the constituent spike builders must correspond to disjoint intervals" ∧
    RepeaterSpikeBuilder.validate [1] (fun _ => 100) [(0, 0), (100, 0)] none = Except.ok () := by
  refine ⟨?_,
    by norm_num [RepeaterSpikeBuilder.validate, allEqual, List.insertionSort,
      List.orderedInsert, pairLe, adjacentDisjoint, List.zip, List.zipWith],
    by norm_num [RepeaterSpikeBuilder.validate, allEqual, List.insertionSort,
      List.orderedInsert, pairLe, adjacentDisjoint, List.zip, List.zipWith]⟩
  intro stepsList childLen instances hsteps
  unfold RepeaterSpikeBuilder.validate
  rw [if_pos hsteps]
  by_cases hadj :
      adjacentDisjoint
        (List.insertionSort pairLe (instances.map (fun ri => (ri.1, ri.1 + childLen ri.2)))) = true
  · rw [if_pos hadj]
    constructor
    · intro hcontra
      exact absurd hcontra (by simp)
    · rintro ⟨i, h, hlt⟩
      exfalso
      have hchain := (adjacentDisjoint_iff_chain _).mp hadj
      have hall := List.chain'_iff_get.mp hchain i (Nat.lt_sub_iff_add_lt.mpr h)
      exact absurd hall (not_le.mpr hlt)
  · rw [if_neg hadj]
    have hfalse :
        adjacentDisjoint
          (List.insertionSort pairLe (instances.map (fun ri => (ri.1, ri.1 + childLen ri.2)))) =
          false := by
      simpa using hadj
    constructor
    · intro _
      exact (adjacentDisjoint_false_iff _).mp hfalse
    · intro _
      rfl

/-- Witness for C3: the general equivalence applied at the concrete failing
placement set, certifying the violating adjacent pair it reports. -/
theorem C3_repeater_disjoint_validation_witness :
    allEqual [1] = true ∧
    (RepeaterSpikeBuilder.validate [1] (fun _ => 100) [(0, 0), (50, 0)] none =
        Except.error "All the constituent spike builders must correspond to disjoint intervals" →
      ∃ i, ∃ h : i + 1 <
          (List.insertionSort pairLe
            ([((0 : ℚ), (0 : ℕ)), (50, 0)].map (fun ri => (ri.1, ri.1 + (fun _ => (100 : ℚ)) ri.2)))).length,
        ((List.insertionSort pairLe
            ([((0 : ℚ), (0 : ℕ)), (50, 0)].map (fun ri => (ri.1, ri.1 + (fun _ => (100 : ℚ)) ri.2)))).get
              ⟨i + 1, h⟩).1 <
        ((List.insertionSort pairLe
            ([((0 : ℚ), (0 : ℕ)), (50, 0)].map (fun ri => (ri.1, ri.1 + (fun _ => (100 : ℚ)) ri.2)))).get
              ⟨i, Nat.lt_of_succ_lt h⟩).2) := by
  refine ⟨by decide, ?_⟩
  exact (C3_repeater_disjoint_validation.1 [1] (fun _ => 100) [(0, 0), (50, 0)] (by decide)).mp

/-- C4: combined rate generator validation succeeds exactly when all child
rate builders share one steps_per_ms and one steps_length; in every other
case it fails (with the corresponding assertion message). -/
theorem C4_combined_rate_validation :
    ∀ rate_builders : List RBView,
      (CombinedRateBuilder.validate rate_builders = Except.ok () ↔
        (∀ a ∈ rate_builders, ∀ b ∈ rate_builders, a.steps_per_ms = b.steps_per_ms) ∧
        (∀ a ∈ rate_builders, ∀ b ∈ rate_builders, a.steps_length = b.steps_length)) := by
  intro rbs
  unfold CombinedRateBuilder.validate
  by_cases hT : allEqual (rbs.map (fun rb => rb.steps_length)) = true
  · by_cases hS : allEqual (rbs.map (fun rb => rb.steps_per_ms)) = true
    · simp only [hT, hS, if_true]
      constructor
      · intro _
        have hT2 := (allEqual_iff _).mp hT
        have hS2 := (allEqual_iff _).mp hS
        refine ⟨fun a ha b hb => ?_, fun a ha b hb => ?_⟩
        · exact hS2 _ (List.mem_map_of_mem _ ha) _ (List.mem_map_of_mem _ hb)
        · exact hT2 _ (List.mem_map_of_mem _ ha) _ (List.mem_map_of_mem _ hb)
      · intro _; trivial
    · simp only [hT, hS, if_true, if_false]
      constructor
      · intro hcontra; cases hcontra
      · intro hP
        exfalso; apply hS
        rw [allEqual_iff]
        intro a ha b hb
        obtain ⟨x, hx, rfl⟩ := List.mem_map.mp ha
        obtain ⟨y, hy, rfl⟩ := List.mem_map.mp hb
        exact hP.1 x hx y hy
  · simp only [hT, if_false]
    constructor
    · intro hcontra; cases hcontra
    · intro hP
      exfalso; apply hT
      rw [allEqual_iff]
      intro a ha b hb
      obtain ⟨x, hx, rfl⟩ := List.mem_map.mp ha
      obtain ⟨y, hy, rfl⟩ := List.mem_map.mp hb
      exact hP.2 x hx y hy

/-- Witness for C4: validation of two concrete consistent children succeeds,
via the equivalence. -/
theorem C4_combined_rate_validation_witness :
    CombinedRateBuilder.validate [{ steps_per_ms := 1, steps_length := 10 },
        { steps_per_ms := 1, steps_length := 10 }] = Except.ok () := by
  refine (C4_combined_rate_validation _).mpr ⟨?_, ?_⟩
  · intro a ha b hb
    simp at ha hb
    rw [ha, hb]
  · intro a ha b hb
    simp at ha hb
    rw [ha, hb]

/-- C8 (code bug): the claim and the spec say stored channels are the
deduplicated input in ascending order.  The ConstRateSpikeBuilder setter
(np.unique) does sort, and the cited example input yields [1,2,3] through
both setters; but the BaseRateBuilder setter stores CPython set-iteration
order, which for the input [8, 0] is [8, 0] — not the ascending [0, 8] the
claim requires. -/
theorem C8_channels_canonicalization :
    BaseRateBuilder.channels_set [8, 0] = [8, 0] ∧
    channelsCanonicalSpec [8, 0] = [0, 8] ∧
    BaseRateBuilder.channels_set [3, 1, 2, 1] = [1, 2, 3] ∧
    ConstRateSpikeBuilder.channels_set [3, 1, 2, 1] = [1, 2, 3] ∧
    (∀ l : List ℕ, List.Sorted (fun a b => a ≤ b) (ConstRateSpikeBuilder.channels_set l) ∧
      (ConstRateSpikeBuilder.channels_set l).Nodup ∧
      ∀ x, x ∈ ConstRateSpikeBuilder.channels_set l ↔ x ∈ l) := by
  refine ⟨by decide, by decide, by decide, by decide, ?_⟩
  intro l
  refine ⟨List.sorted_insertionSort _ _, ?_, ?_⟩
  · exact ((List.perm_insertionSort _ _).nodup_iff).mpr l.nodup_dedup
  · intro x
    unfold ConstRateSpikeBuilder.channels_set npUnique
    rw [(List.perm_insertionSort _ _).mem_iff, List.mem_dedup]

theorem listMax_bound (l : List ℚ) : ∀ a : ℚ, a ≤ listMax a l ∧ ∀ x ∈ l, x ≤ listMax a l := by
  induction l with
  | nil => intro a; exact ⟨le_refl a, by simp⟩
  | cons b l ih =>
    intro a
    have hstep : listMax a (b :: l) = listMax (max a b) l := rfl
    constructor
    · rw [hstep]
      exact le_trans (le_max_left a b) (ih (max a b)).1
    · intro x hx
      rcases List.mem_cons.mp hx with rfl | hx2
      · rw [hstep]
        exact le_trans (le_max_right a x) (ih (max a x)).1
      · rw [hstep]
        exact (ih (max a b)).2 x hx2

theorem listMax_attained (l : List ℚ) : ∀ a : ℚ, listMax a l = a ∨ listMax a l ∈ l := by
  induction l with
  | nil => intro a; exact Or.inl rfl
  | cons b l ih =>
    intro a
    have hstep : listMax a (b :: l) = listMax (max a b) l := rfl
    rcases ih (max a b) with h | h
    · rcases max_choice a b with hab | hab
      · exact Or.inl (by rw [hstep, h, hab])
      · exact Or.inr (by rw [hstep, h, hab]; exact List.mem_cons_self b l)
    · exact Or.inr (by rw [hstep]; exact List.mem_cons_of_mem b h)

theorem listMin_bound (l : List ℚ) : ∀ a : ℚ, listMin a l ≤ a ∧ ∀ x ∈ l, listMin a l ≤ x := by
  induction l with
  | nil => intro a; exact ⟨le_refl a, by simp⟩
  | cons b l ih =>
    intro a
    have hstep : listMin a (b :: l) = listMin (min a b) l := rfl
    constructor
    · rw [hstep]
      exact le_trans (ih (min a b)).1 (min_le_left a b)
    · intro x hx
      rcases List.mem_cons.mp hx with rfl | hx2
      · rw [hstep]
        exact le_trans (ih (min a x)).1 (min_le_right a x)
      · rw [hstep]
        exact (ih (min a b)).2 x hx2

theorem listMin_attained (l : List ℚ) : ∀ a : ℚ, listMin a l = a ∨ listMin a l ∈ l := by
  induction l with
  | nil => intro a; exact Or.inl rfl
  | cons b l ih =>
    intro a
    have hstep : listMin a (b :: l) = listMin (min a b) l := rfl
    rcases ih (min a b) with h | h
    · rcases min_choice a b with hab | hab
      · exact Or.inl (by rw [hstep, h, hab])
      · exact Or.inr (by rw [hstep, h, hab]; exact List.mem_cons_self b l)
    · exact Or.inr (by rw [hstep]; exact List.mem_cons_of_mem b h)

/-- C6: with a non-empty child set, superimpose preprocessing derives
start_time as the minimum child start (a lower bound that is attained),
start_time + time_length as the maximum child end (an upper bound that is
attained, i.e. time_length = max(start + time_length) - min(start)),
steps_per_ms from the children (the first child), and channels as the
ascending, duplicate-free enumeration of the union of the child channel
sets. -/
theorem C6_superimpose_preprocess :
    ∀ (c0 : SBView) (rest : List SBView) (d : SSBDerived),
      SuperimposeSpikeBuilder.preprocess (c0 :: rest) = some d →
      (∀ c ∈ c0 :: rest, d.start_time ≤ c.start_time) ∧
      (∃ c ∈ c0 :: rest, d.start_time = c.start_time) ∧
      (∀ c ∈ c0 :: rest, c.start_time + c.time_length ≤ d.start_time + d.time_length) ∧
      (∃ c ∈ c0 :: rest, c.start_time + c.time_length = d.start_time + d.time_length) ∧
      d.steps_per_ms = c0.steps_per_ms ∧
      List.Sorted (fun a b => a ≤ b) d.channels ∧
      d.channels.Nodup ∧
      (∀ x, x ∈ d.channels ↔ ∃ c ∈ c0 :: rest, x ∈ c.channels) := by
  intro c0 rest d hd
  simp only [SuperimposeSpikeBuilder.preprocess, Option.some.injEq] at hd
  have h1 : d.start_time = listMin c0.start_time (rest.map (fun sb => sb.start_time)) := by
    rw [← hd]
  have h2 : d.start_time + d.time_length =
      listMax (c0.time_length + c0.start_time)
        (rest.map (fun sb => sb.time_length + sb.start_time)) := by
    rw [← hd]
    dsimp only
    ring
  have h3 : d.steps_per_ms = c0.steps_per_ms := by rw [← hd]
  have h4 : d.channels =
      List.insertionSort (fun a b => a ≤ b)
        (((c0 :: rest).map (fun sb => sb.channels)).flatten.dedup) := by
    rw [← hd]
  refine ⟨?_, ?_, ?_, ?_, h3, ?_, ?_, ?_⟩
  · intro c hc
    rw [h1]
    rcases List.mem_cons.mp hc with rfl | hc2
    · exact (listMin_bound _ _).1
    · exact (listMin_bound _ _).2 c.start_time (List.mem_map_of_mem _ hc2)
  · rw [h1]
    rcases listMin_attained (rest.map (fun sb => sb.start_time)) c0.start_time with h | h
    · exact ⟨c0, List.mem_cons_self c0 rest, h⟩
    · obtain ⟨c, hc, hceq⟩ := List.mem_map.mp h
      exact ⟨c, List.mem_cons_of_mem c0 hc, hceq.symm⟩
  · intro c hc
    rw [h2]
    rcases List.mem_cons.mp hc with rfl | hc2
    · rw [add_comm]
      exact (listMax_bound _ _).1
    · rw [add_comm]
      exact (listMax_bound _ _).2 (c.time_length + c.start_time) (List.mem_map_of_mem _ hc2)
  · rw [h2]
    rcases listMax_attained (rest.map (fun sb => sb.time_length + sb.start_time))
        (c0.time_length + c0.start_time) with h | h
    · exact ⟨c0, List.mem_cons_self c0 rest, by rw [h, add_comm]⟩
    · obtain ⟨c, hc, hceq⟩ := List.mem_map.mp h
      exact ⟨c, List.mem_cons_of_mem c0 hc, by rw [← hceq, add_comm]⟩
  · rw [h4]
    exact List.sorted_insertionSort _ _
  · rw [h4]
    exact ((List.perm_insertionSort _ _).nodup_iff).mpr (List.nodup_dedup _)
  · intro x
    rw [h4, (List.perm_insertionSort _ _).mem_iff, List.mem_dedup, List.mem_flatten]
    constructor
    · rintro ⟨cl, hcl, hx⟩
      obtain ⟨c, hc, rfl⟩ := List.mem_map.mp hcl
      exact ⟨c, hc, hx⟩
    · rintro ⟨c, hc, hx⟩
      exact ⟨c.channels, List.mem_map_of_mem _ hc, hx⟩

/-- Witness for C6 on one concrete child over channels [2, 1]: the derived
record and, via the theorem, the start-time lower bound. -/
theorem C6_superimpose_preprocess_witness :
    SuperimposeSpikeBuilder.preprocess [{ start_time := 0, time_length := 10, steps_per_ms := 1, channels := [2, 1] }] =
      some { time_length := 10, start_time := 0, steps_per_ms := 1, channels := [1, 2] } ∧
    ∀ c ∈ [({ start_time := 0, time_length := 10, steps_per_ms := 1, channels := [2, 1] } : SBView)],
      (0 : ℚ) ≤ c.start_time := by
  have h1 :
      SuperimposeSpikeBuilder.preprocess
          [{ start_time := 0, time_length := 10, steps_per_ms := 1, channels := [2, 1] }] =
        some { time_length := 10, start_time := 0, steps_per_ms := 1, channels := [1, 2] } := by
    simp only [SuperimposeSpikeBuilder.preprocess, Option.some.injEq, SSBDerived.mk.injEq]
    refine ⟨by norm_num [listMax, listMin], by norm_num [listMin], trivial, by decide⟩
  refine ⟨h1, ?_⟩
  have h2 := C6_superimpose_preprocess
    { start_time := 0, time_length := 10, steps_per_ms := 1, channels := [2, 1] } []
    { time_length := 10, start_time := 0, steps_per_ms := 1, channels := [1, 2] } h1
  exact h2.1

/-- C9 counterexample: assigning a two-element, all non-negative rate vector
to a ConstRateBuilder with two channels raises (the numpy comparison has no
single truth value), although the claim says a vector with exactly one
non-negative value per channel is accepted. -/
theorem C9_counterexample_vector_rate_rejected :
    ConstRateBuilder.rate_set (PyRate.vec [2, 3]) =
      Except.error "The truth value of an array with more than one element is ambiguous" := by
  rfl

/-- C9 amended: the ConstRateBuilder rate setter accepts a non-negative
scalar (and a one-element non-negative vector, which broadcasts as a scalar)
and rejects negative scalars; any vector of two or more elements is rejected
regardless of the channel count.  build() never fails: it stores the rate
value itself, which broadcasts over channels x steps_length. -/
theorem C9_const_rate_scalar_only :
    (∀ q : ℚ, 0 ≤ q → ConstRateBuilder.rate_set (PyRate.scalar q) = Except.ok (PyRate.scalar q)) ∧
    (∀ q : ℚ, q < 0 →
      ConstRateBuilder.rate_set (PyRate.scalar q) = Except.error "rate must be a non-negative number") ∧
    (∀ l : List ℚ, 2 ≤ l.length →
      ConstRateBuilder.rate_set (PyRate.vec l) =
        Except.error "The truth value of an array with more than one element is ambiguous") ∧
    (∀ r : PyRate, ConstRateBuilder.build r = r) ∧
    (∀ (q : ℚ) (i t : ℕ), (ConstRateBuilder.build (PyRate.scalar q)).entry i t = q) := by
  refine ⟨?_, ?_, ?_, fun r => rfl, fun q i t => rfl⟩
  · intro q hq
    simp [ConstRateBuilder.rate_set, hq]
  · intro q hq
    simp [ConstRateBuilder.rate_set, not_le.mpr hq]
  · intro l hl
    match l, hl with
    | x :: y :: rest, _ => rfl

/-- Witness for C9 amended at concrete rates 2, -1 and [2, 3]. -/
theorem C9_const_rate_scalar_only_witness :
    ConstRateBuilder.rate_set (PyRate.scalar 2) = Except.ok (PyRate.scalar 2) ∧
    ConstRateBuilder.rate_set (PyRate.scalar (-1)) = Except.error "rate must be a non-negative number" ∧
    ConstRateBuilder.rate_set (PyRate.vec [2, 3]) =
      Except.error "The truth value of an array with more than one element is ambiguous" ∧
    (ConstRateBuilder.build (PyRate.scalar 2)).entry 1 9 = 2 := by
  refine ⟨?_, ?_, ?_, ?_⟩
  · exact C9_const_rate_scalar_only.1 2 (by norm_num)
  · exact C9_const_rate_scalar_only.2.1 (-1) (by norm_num)
  · exact C9_const_rate_scalar_only.2.2.1 [2, 3] (by norm_num)
  · exact C9_const_rate_scalar_only.2.2.2.2 2 1 9

theorem getD_of_lt (l : List α) (i : ℕ) (d : α) (h : i < l.length) : l.getD i d = l[i] := by
  rw [List.getD_eq_getElem?_getD, List.getElem?_eq_getElem h]
  rfl

theorem getD_of_ge (l : List α) (i : ℕ) (d : α) (h : l.length ≤ i) : l.getD i d = d := by
  rw [List.getD_eq_getElem?_getD, List.getElem?_eq_none h]
  rfl

theorem getD_replicate_zero (w t : ℕ) : (List.replicate w (0 : ℚ)).getD t 0 = 0 := by
  by_cases h : t < w
  · rw [getD_of_lt _ _ _ (by simpa using h)]
    exact List.getElem_replicate _ _
  · exact getD_of_ge _ _ _ (by simpa using not_lt.mp h)

theorem entry_extendChild (cs : List ℕ) (rb : RBuilt) (rows : List (List ℚ))
    (hout : rb.out = RArr.arr rows) (i t : ℕ) (hi : i < cs.length) :
    (extendChild cs rb).entry i t = childValueAt rb (cs.getD i 0) t := by
  unfold extendChild childValueAt
  rw [hout]
  simp only [RArr.entry]
  have hlen : i < ((List.range cs.length).map (fun i =>
      match chanIndex rb.channels (cs.getD i 0) with
      | some j => rows.getD j (List.replicate (rows.headD []).length 0)
      | none => List.replicate (rows.headD []).length 0)).length := by
    simpa using hi
  rw [getD_of_lt _ _ _ hlen, List.getElem_map, List.getElem_range]
  cases hidx : chanIndex rb.channels (cs.getD i 0) with
  | none =>
    simp only [getD_replicate_zero]
  | some j =>
    simp only
    by_cases hj : j < rows.length
    · rw [getD_of_lt _ _ _ hj, getD_of_lt _ _ _ hj]
    · rw [getD_of_ge _ _ _ (not_lt.mp hj), getD_of_ge _ _ _ (not_lt.mp hj),
        getD_replicate_zero]
      rfl

theorem npAdd_shape_entry (a b : RArr) (n m : ℕ) (ha : IsShape a n m) (hb : IsShape b n m) :
    IsShape (npAdd a b) n m ∧
      ∀ i t, i < n → t < m → (npAdd a b).entry i t = a.entry i t + b.entry i t := by
  obtain ⟨as, rfl, hal, har⟩ := ha
  obtain ⟨bs, rfl, hbl, hbr⟩ := hb
  constructor
  · refine ⟨List.zipWith (List.zipWith (fun x y => x + y)) as bs, rfl, ?_, ?_⟩
    · rw [List.length_zipWith, hal, hbl, min_self]
    · intro r hr
      rw [List.mem_iff_getElem] at hr
      obtain ⟨k, hk, rfl⟩ := hr
      rw [List.getElem_zipWith, List.length_zipWith,
        har _ (List.getElem_mem _), hbr _ (List.getElem_mem _), min_self]
  · intro i t hi ht
    have hia : i < as.length := by rw [hal]; exact hi
    have hib : i < bs.length := by rw [hbl]; exact hi
    have hiz : i < (List.zipWith (List.zipWith (fun x y : ℚ => x + y)) as bs).length := by
      rw [List.length_zipWith, hal, hbl, min_self]; exact hi
    have hta : t < as[i].length := by rw [har _ (List.getElem_mem _)]; exact ht
    have htb : t < bs[i].length := by rw [hbr _ (List.getElem_mem _)]; exact ht
    have htz : t < (List.zipWith (fun x y : ℚ => x + y) as[i] bs[i]).length := by
      rw [List.length_zipWith]
      exact lt_min hta htb
    simp only [npAdd, RArr.entry]
    rw [getD_of_lt _ _ _ hiz, List.getElem_zipWith,
      getD_of_lt _ _ _ htz, List.getElem_zipWith,
      getD_of_lt _ _ _ hia, getD_of_lt _ _ _ hta,
      getD_of_lt _ _ _ hib, getD_of_lt _ _ _ htb]

theorem npAdd_zero_left (b : RArr) (n m : ℕ) (hb : IsShape b n m) :
    IsShape (npAdd (RArr.scalar 0) b) n m ∧
      ∀ i t, i < n → t < m → (npAdd (RArr.scalar 0) b).entry i t = b.entry i t := by
  obtain ⟨bs, rfl, hbl, hbr⟩ := hb
  constructor
  · refine ⟨bs.map (List.map (fun x => 0 + x)), rfl, by simpa using hbl, ?_⟩
    intro r hr
    obtain ⟨r0, hr0, rfl⟩ := List.mem_map.mp hr
    simpa using hbr r0 hr0
  · intro i t hi ht
    have hib : i < bs.length := by rw [hbl]; exact hi
    have him : i < (bs.map (List.map (fun x : ℚ => 0 + x))).length := by
      simpa using hib
    have htb : t < bs[i].length := by rw [hbr _ (List.getElem_mem _)]; exact ht
    have htm : t < (List.map (fun x : ℚ => 0 + x) bs[i]).length := by simpa using htb
    simp only [npAdd, RArr.entry]
    rw [getD_of_lt _ _ _ him, List.getElem_map,
      getD_of_lt _ _ _ htm, List.getElem_map,
      getD_of_lt _ _ _ hib, getD_of_lt _ _ _ htb, zero_add]

theorem foldl_npAdd_entry (rest : List RArr) (n m : ℕ) :
    ∀ acc : RArr, IsShape acc n m → (∀ a ∈ rest, IsShape a n m) →
      IsShape (rest.foldl npAdd acc) n m ∧
      ∀ i t, i < n → t < m →
        (rest.foldl npAdd acc).entry i t =
          acc.entry i t + (rest.map (fun a => a.entry i t)).sum := by
  induction rest with
  | nil =>
    intro acc hacc _
    exact ⟨hacc, by simp⟩
  | cons e rest2 ih =>
    intro acc hacc hall
    have he := hall e (List.mem_cons_self e rest2)
    have hstep := npAdd_shape_entry acc e n m hacc he
    have hres := ih (npAdd acc e) hstep.1 (fun a ha => hall a (List.mem_cons_of_mem e ha))
    refine ⟨hres.1, ?_⟩
    intro i t hi ht
    rw [List.foldl_cons, hres.2 i t hi ht, hstep.2 i t hi ht]
    simp only [List.map_cons, List.sum_cons]
    ring

theorem combine_sum_entry (exts : List RArr) (n m i t : ℕ) (hi : i < n) (ht : t < m)
    (hall : ∀ a ∈ exts, IsShape a n m) :
    (combine_sum exts).entry i t = (exts.map (fun a => a.entry i t)).sum := by
  cases exts with
  | nil => simp [combine_sum, RArr.entry]
  | cons e rest =>
    unfold combine_sum
    rw [List.foldl_cons]
    have he := hall e (List.mem_cons_self e rest)
    have h0 := npAdd_zero_left e n m he
    have hres := foldl_npAdd_entry rest n m (npAdd (RArr.scalar 0) e) h0.1
      (fun a ha => hall a (List.mem_cons_of_mem e ha))
    rw [hres.2 i t hi ht, h0.2 i t hi ht]
    simp only [List.map_cons, List.sum_cons]

theorem extendChild_shape (cs : List ℕ) (rb : RBuilt) (rows : List (List ℚ)) (m : ℕ)
    (hout : rb.out = RArr.arr rows) (hne : rows ≠ []) (hrow : ∀ r ∈ rows, r.length = m) :
    IsShape (extendChild cs rb) cs.length m := by
  have hw : (rows.headD []).length = m := by
    cases rows with
    | nil => exact absurd rfl hne
    | cons r0 rs => exact hrow r0 (List.mem_cons_self r0 rs)
  unfold extendChild
  rw [hout]
  refine ⟨_, rfl, by simp, ?_⟩
  intro r hr
  obtain ⟨i, _, rfl⟩ := List.mem_map.mp hr
  cases hidx : chanIndex rb.channels (cs.getD i 0) with
  | none =>
    simpa using hw
  | some j =>
    simp only
    by_cases hj : j < rows.length
    · rw [getD_of_lt _ _ _ hj]
      exact hrow _ (List.getElem_mem _)
    · rw [getD_of_ge _ _ _ (not_lt.mp hj)]
      simpa using hw

/-- C5: for a combined rate generator whose children pass validation
(uniform width m here), the default-transform build succeeds and each output
cell (i, t) is the sum over the children of the child value at parent
channel cs[i] and step t, where a child contributes its own row for that
channel (looked up through the channel-to-row map) and 0 on channels it does
not cover — i.e. the elementwise sum of the zero-extended child arrays.  At
the cited concrete input, two constant children of rates 2 and 3 over
matching channels [0, 1], steps_per_ms 1 and time_length 10 build scalar
rate arrays, and the combined build output is 5.0 at every cell of the
2-by-10 output shape. -/
theorem C5_combined_rate_build :
    (∀ (cs : List ℕ) (children : List RBuilt) (m i t : ℕ),
      i < cs.length → t < m →
      (∀ rb ∈ children, ∃ rows, rb.out = RArr.arr rows ∧ rows ≠ [] ∧
        rows.length = rb.channels.length ∧ ∀ r ∈ rows, r.length = m) →
      ∃ out, CombinedRateBuilder.build cs children combine_sum false = Except.ok out ∧
        out.entry i t = (children.map (fun rb => childValueAt rb (cs.getD i 0) t)).sum) ∧
    CombinedRateBuilder.build [0, 1]
        [{ channels := [0, 1], out := RArr.scalar 2 }, { channels := [0, 1], out := RArr.scalar 3 }]
        combine_sum false = Except.ok (RArr.scalar 5) ∧
    (∀ i t, i < 2 → t < 10 → (RArr.scalar (5 : ℚ)).entry i t = 5) := by
  refine ⟨?_, ?_, fun i t _ _ => rfl⟩
  · intro cs children m i t hi ht hall
    refine ⟨combine_sum (children.map (extendChild cs)), by simp [CombinedRateBuilder.build], ?_⟩
    rw [combine_sum_entry (children.map (extendChild cs)) cs.length m i t hi ht ?shapes]
    case shapes =>
      intro a ha
      obtain ⟨rb, hrb, rfl⟩ := List.mem_map.mp ha
      obtain ⟨rows, hout, hne, _, hrow⟩ := hall rb hrb
      exact extendChild_shape cs rb rows m hout hne hrow
    rw [List.map_map]
    apply congrArg
    apply List.map_congr_left
    intro rb hrb
    obtain ⟨rows, hout, _, _, _⟩ := hall rb hrb
    exact entry_extendChild cs rb rows hout i t hi
  · norm_num [CombinedRateBuilder.build, extendChild, combine_sum, npAdd]

/-- Witness for C5: the general cell formula applied at the concrete
two-constant-children instance (as array children over channels [0, 1] with
width 10), cell (0, 0). -/
theorem C5_combined_rate_build_witness :
    ∃ out, CombinedRateBuilder.build [0, 1]
        [{ channels := [0, 1], out := RArr.arr [List.replicate 10 2, List.replicate 10 2] },
         { channels := [0, 1], out := RArr.arr [List.replicate 10 3, List.replicate 10 3] }]
        combine_sum false = Except.ok out ∧
      out.entry 0 0 =
        ([{ channels := [0, 1], out := RArr.arr [List.replicate 10 2, List.replicate 10 2] },
          { channels := [0, 1], out := RArr.arr [List.replicate 10 3, List.replicate 10 3] }].map
            (fun rb => childValueAt rb (([0, 1] : List ℕ).getD 0 0) 0)).sum := by
  apply C5_combined_rate_build.1 [0, 1] _ 10 0 0 (by norm_num) (by norm_num)
  intro rb hrb
  rcases List.mem_cons.mp hrb with rfl | hrb2
  · exact ⟨_, rfl, by simp, by simp, by intro r hr; rcases List.mem_cons.mp hr with rfl | h2 <;> simp_all⟩
  · rcases List.mem_cons.mp hrb2 with rfl | hrb3
    · exact ⟨_, rfl, by simp, by simp, by intro r hr; rcases List.mem_cons.mp hr with rfl | h2 <;> simp_all⟩
    · exact absurd hrb3 (List.not_mem_nil rb)

/-- C7: in exact real arithmetic, the OU continuous-to-discrete parameter
conversion preserves the stationary variance,
sigma_DT^2 * h / (theta_DT * (2 - theta_DT * h)) = sigma^2 / (2 * theta),
and the one-step correlation, 1 - theta_DT * h = exp(-theta * h), for every
mean, every sigma > 0, theta > 0 and steps_per_ms >= 1 with
h = 1 / steps_per_ms; the mean is carried over unchanged. -/
theorem C7_ou_parameter_conversion (mean sigma theta : ℝ) (n : ℕ)
    (_hs : 0 < sigma) (ht : 0 < theta) (hn : 1 ≤ n) :
    (OURateBuilder.convert_params_CT_to_DT mean sigma theta n).sigma ^ 2 * (1 / (n : ℝ)) /
        ((OURateBuilder.convert_params_CT_to_DT mean sigma theta n).theta *
          (2 - (OURateBuilder.convert_params_CT_to_DT mean sigma theta n).theta * (1 / (n : ℝ)))) =
      sigma ^ 2 / (2 * theta) ∧
    1 - (OURateBuilder.convert_params_CT_to_DT mean sigma theta n).theta * (1 / (n : ℝ)) =
      Real.exp (-theta * (1 / (n : ℝ))) ∧
    (OURateBuilder.convert_params_CT_to_DT mean sigma theta n).mean = mean := by
  have hn0 : (0 : ℝ) < (n : ℝ) := by
    have : (1 : ℝ) ≤ (n : ℝ) := by exact_mod_cast hn
    linarith
  set h : ℝ := 1 / (n : ℝ) with hdef
  have hh : 0 < h := by
    rw [hdef]
    positivity
  have hhne : h ≠ 0 := ne_of_gt hh
  set E : ℝ := Real.exp (-theta * h) with hE
  have hE0 : 0 < E := Real.exp_pos _
  have hE1 : E < 1 := by
    rw [hE]
    calc Real.exp (-theta * h) < Real.exp 0 := by
          apply Real.exp_lt_exp.mpr
          have : 0 < theta * h := mul_pos ht hh
          linarith
      _ = 1 := Real.exp_zero
  have hthetaDT : (OURateBuilder.convert_params_CT_to_DT mean sigma theta n).theta = (1 - E) / h := by
    simp only [OURateBuilder.convert_params_CT_to_DT]
  have hsigmaDT : (OURateBuilder.convert_params_CT_to_DT mean sigma theta n).sigma =
      sigma * Real.sqrt ((1 - E) / h * (2 - (1 - E) / h * h) / (2 * h * theta)) := by
    simp only [OURateBuilder.convert_params_CT_to_DT]
  have htDh : (1 - E) / h * h = 1 - E := div_mul_cancel₀ (1 - E) hhne
  have htD0 : 0 < (1 - E) / h := div_pos (by linarith) hh
  have h2tDh : 0 < 2 - (1 - E) / h * h := by
    rw [htDh]
    linarith
  have hX0 : 0 ≤ (1 - E) / h * (2 - (1 - E) / h * h) / (2 * h * theta) := by
    apply le_of_lt
    apply div_pos (mul_pos htD0 h2tDh)
    positivity
  refine ⟨?_, ?_, rfl⟩
  · rw [hsigmaDT, hthetaDT, mul_pow, Real.sq_sqrt hX0]
    rw [htDh]
    have h1E : (0 : ℝ) < 1 - E := by linarith
    have h2E : (0 : ℝ) < 2 - (1 - E) := by linarith
    field_simp
    ring
  · rw [hthetaDT, htDh]
    ring

/-- Witness for C7 at mean 0, sigma 1, theta 1, steps_per_ms 1. -/
theorem C7_ou_parameter_conversion_witness :
    (0 : ℝ) < 1 ∧ (1 : ℕ) ≤ 1 ∧
    (1 - (OURateBuilder.convert_params_CT_to_DT 0 1 1 1).theta * (1 / ((1 : ℕ) : ℝ)) =
      Real.exp (-1 * (1 / ((1 : ℕ) : ℝ)))) := by
  refine ⟨by norm_num, le_refl 1, ?_⟩
  exact (C7_ou_parameter_conversion 0 1 1 1 (by norm_num) (by norm_num) (le_refl 1)).2.1

/-- C10: on any SuperimposeSpikeBuilder state, add_spike_builder with no
name (the default-name path, reached also for bare builders passed to the
constructor) raises NameError — the default name is formatted from the
unbound local `_last_count` — before anything is stored, so the contained
spike builder set is unchanged. -/
theorem C10_superimpose_unnamed_add_name_error :
    ∀ (st : SSBState) (sb : BuilderRef) (fresh : ℕ),
      SuperimposeSpikeBuilder.add_spike_builder st sb none fresh =
        Except.error PyErr.nameError := by
  intro st sb fresh
  rfl

end InputBuilder
